import Mathlib

/-!
Verification development for the live-audio language-tutoring front end
(`src/App.tsx`, `src/types.ts`).  This file gives a shallow embedding of
the application's playback scheduler, PCM codec, turn assembler and
resource-teardown logic, and proves the design document's properties
against that embedding.

Times and audio samples are modelled as rationals (`Rat`); the source's
JavaScript numbers are IEEE doubles, but every claim concerns exact
scheduling and quantization arithmetic, for which the rational reading
is the intended one.
-/

namespace TutorApp

/-- `Math.max` on rationals, as used for the start-time computation in
`App.tsx` line 468. -/
def ratMax (a b : Rat) : Rat := if a ≤ b then b else a

/-- One scheduled `AudioBufferSourceNode`: its scheduled start time, the
duration of its buffer, and whether `start()` has been called on it.
`App.tsx` line 474 starts every node before adding it to the set, so
every node the queue holds has `started = true`. -/
structure SourceNode where
  startTime : Rat
  duration : Rat
  started : Bool
deriving Repr, DecidableEq

/-- The playback queue ref of `App.tsx` line 297:
`{ nextStartTime: number, sources: Set<AudioBufferSourceNode> }`.
The set of source nodes is modelled as a list in insertion order. -/
structure PlaybackQueue where
  nextStartTime : Rat
  sources : List SourceNode
deriving Repr, DecidableEq

/-- The queue as (re-)initialised at `App.tsx` lines 297 and 385:
`{ nextStartTime: 0, sources: new Set() }`. -/
def resetQueue : PlaybackQueue := { nextStartTime := 0, sources := [] }

/-- Sequential embedding of the audio branch of `onmessage`
(`App.tsx` lines 467-476), run to completion for one chunk: read
`nextStartTime`, take the max with the output clock (`currentTime`),
start a source node at that time, advance `nextStartTime` by the
buffer's duration and add the node to the set.  Returns the computed
`effectiveStartTime` together with the updated queue. -/
def enqueueChunk (q : PlaybackQueue) (clock duration : Rat) : Rat × PlaybackQueue :=
  let effectiveStartTime := ratMax q.nextStartTime clock
  (effectiveStartTime,
    { nextStartTime := effectiveStartTime + duration,
      sources := q.sources ++
        [{ startTime := effectiveStartTime, duration := duration, started := true }] })

/-- Run a list of `(clock, duration)` chunks through `enqueueChunk` in
order, collecting the computed start times. -/
def scheduleRun (q : PlaybackQueue) : List (Rat × Rat) → List Rat × PlaybackQueue
  | [] => ([], q)
  | (c, d) :: rest =>
    ((enqueueChunk q c d).1 :: (scheduleRun (enqueueChunk q c d).2 rest).1,
     (scheduleRun (enqueueChunk q c d).2 rest).2)

/-- Clock discipline of the gapless-scheduling claim: at each enqueue the
output clock does not exceed the queue's current `nextStartTime`. -/
def noUnderrun (t : Rat) : List (Rat × Rat) → Bool
  | [] => true
  | (c, d) :: rest => decide (c ≤ t) && noUnderrun (t + d) rest

theorem ratMax_eq_left {a b : Rat} (h : b ≤ a) : ratMax a b = a := by
  unfold ratMax
  split
  · exact le_antisymm ‹a ≤ b› h ▸ rfl
  · rfl

theorem scheduleRun_length (chunks : List (Rat × Rat)) (q : PlaybackQueue) :
    (scheduleRun q chunks).1.length = chunks.length := by
  induction chunks generalizing q with
  | nil => rfl
  | cons cd rest ih =>
    obtain ⟨c, d⟩ := cd
    simpa [scheduleRun] using ih (enqueueChunk q c d).2

theorem scheduleRun_getD (chunks : List (Rat × Rat)) (q : PlaybackQueue)
    (h : noUnderrun q.nextStartTime chunks = true) (i : Nat) (hi : i < chunks.length) :
    (scheduleRun q chunks).1.getD i 0
      = q.nextStartTime + ((chunks.take i).map Prod.snd).sum := by
  induction chunks generalizing q i with
  | nil => simp at hi
  | cons cd rest ih =>
    obtain ⟨c, d⟩ := cd
    rw [noUnderrun] at h
    rw [Bool.and_eq_true, decide_eq_true_eq] at h
    obtain ⟨hc, hrest⟩ := h
    cases i with
    | zero =>
      simp [scheduleRun, enqueueChunk, ratMax_eq_left hc]
    | succ j =>
      have hlen : j < rest.length := by simpa using hi
      have hq : (enqueueChunk q c d).2.nextStartTime = q.nextStartTime + d := by
        simp [enqueueChunk, ratMax_eq_left hc]
      have := ih (enqueueChunk q c d).2 (by rw [hq]; exact hrest) j hlen
      simp only [scheduleRun, List.getD_cons_succ, this, hq, List.take_succ_cons,
        List.map_cons, List.sum_cons]
      ring

theorem scheduleRun_nextStartTime (chunks : List (Rat × Rat)) (q : PlaybackQueue)
    (h : noUnderrun q.nextStartTime chunks = true) :
    (scheduleRun q chunks).2.nextStartTime
      = q.nextStartTime + (chunks.map Prod.snd).sum := by
  induction chunks generalizing q with
  | nil => simp [scheduleRun]
  | cons cd rest ih =>
    obtain ⟨c, d⟩ := cd
    rw [noUnderrun] at h
    rw [Bool.and_eq_true, decide_eq_true_eq] at h
    obtain ⟨hc, hrest⟩ := h
    have hq : (enqueueChunk q c d).2.nextStartTime = q.nextStartTime + d := by
      simp [enqueueChunk, ratMax_eq_left hc]
    have := ih (enqueueChunk q c d).2 (by rw [hq]; exact hrest)
    simp only [scheduleRun, this, hq, List.map_cons, List.sum_cons]
    ring

theorem take_map_sum_succ (chunks : List (Rat × Rat)) (i : Nat) (hi : i < chunks.length) :
    ((chunks.take (i + 1)).map Prod.snd).sum
      = ((chunks.take i).map Prod.snd).sum + (chunks.getD i (0, 0)).2 := by
  induction chunks generalizing i with
  | nil => simp at hi
  | cons cd rest ih =>
    cases i with
    | zero => simp
    | succ j =>
      have hlen : j < rest.length := by simpa using hi
      simp only [List.take_succ_cons, List.map_cons, List.sum_cons, List.getD_cons_succ,
        ih j hlen]
      ring

/-- Claim C1 (gapless in-order scheduling): starting from a reset queue,
for a sequence of chunks enqueued in order with no interruption and with
the output clock never exceeding the current `nextStartTime`, chunk `i`'s
computed start time is the sum of the earlier durations, consecutive
chunks are exactly contiguous (zero gap, zero overlap), and the final
`nextStartTime` is the total duration. -/
theorem gapless_in_order_scheduling (chunks : List (Rat × Rat))
    (h : noUnderrun 0 chunks = true) :
    (scheduleRun resetQueue chunks).1.length = chunks.length ∧
    (∀ i, i < chunks.length →
      (scheduleRun resetQueue chunks).1.getD i 0
        = ((chunks.take i).map Prod.snd).sum) ∧
    (∀ i, i + 1 < chunks.length →
      (scheduleRun resetQueue chunks).1.getD (i + 1) 0
        = (scheduleRun resetQueue chunks).1.getD i 0 + (chunks.getD i (0, 0)).2) ∧
    (scheduleRun resetQueue chunks).2.nextStartTime = (chunks.map Prod.snd).sum := by
  have h0 : resetQueue.nextStartTime = 0 := rfl
  refine ⟨scheduleRun_length chunks resetQueue, ?_, ?_, ?_⟩
  · intro i hi
    have := scheduleRun_getD chunks resetQueue (by rw [h0]; exact h) i hi
    simpa [h0] using this
  · intro i hi
    have hi' : i < chunks.length := by omega
    have h1 := scheduleRun_getD chunks resetQueue (by rw [h0]; exact h) (i + 1) hi
    have h2 := scheduleRun_getD chunks resetQueue (by rw [h0]; exact h) i hi'
    rw [h1, h2, h0, take_map_sum_succ chunks i hi', zero_add, zero_add]
  · have := scheduleRun_nextStartTime chunks resetQueue (by rw [h0]; exact h)
    simpa [h0] using this

/-- Witness for C1: the spec's E2E scenario A — durations 1.0 s, 0.5 s,
2.0 s enqueued at clock 0 give start times 0, 1.0, 1.5 and a final
`nextStartTime` of 3.5. -/
theorem gapless_in_order_scheduling_witness :
    noUnderrun 0 [((0 : Rat), (1 : Rat)), (0, mkRat 1 2), (0, 2)] = true ∧
    (scheduleRun resetQueue [((0 : Rat), (1 : Rat)), (0, mkRat 1 2), (0, 2)]).1
      = [0, 1, mkRat 3 2] ∧
    (scheduleRun resetQueue [((0 : Rat), (1 : Rat)), (0, mkRat 1 2), (0, 2)]).2.nextStartTime
      = ([((0 : Rat), (1 : Rat)), (0, mkRat 1 2), (0, 2)].map Prod.snd).sum ∧
    ([((0 : Rat), (1 : Rat)), (0, mkRat 1 2), (0, 2)].map Prod.snd).sum = mkRat 7 2 :=
  ⟨by with_unfolding_all decide, by with_unfolding_all decide,
   (gapless_in_order_scheduling [((0 : Rat), (1 : Rat)), (0, mkRat 1 2), (0, 2)]
     (by with_unfolding_all decide)).2.2.2,
   by with_unfolding_all decide⟩

/-! ### Interleaved message handling

The `onmessage` callback (`App.tsx` lines 421-483) is an `async`
function.  For an inline audio chunk it reads `nextStartTime` and the
output clock and computes `effectiveStartTime` (lines 467-468) *before*
`await decodeAudioData(...)` (line 469), and only *after* that await
starts the node and writes `nextStartTime` back (lines 470-476).  The
transport dispatches each arriving message without waiting for the
previous handler, so other `onmessage` invocations (further audio
chunks, or an interruption) run during the await.  We model this with
one atomic step per handler segment. -/

/-- A decode in flight: the handler has executed lines 467-468 for this
chunk (capturing `effectiveStartTime`) but not yet resumed after the
`await` on line 469. -/
structure PendingDecode where
  chunkId : Nat
  effectiveStartTime : Rat
  duration : Rat
deriving Repr, DecidableEq

/-- Playback queue plus the set of decodes in flight. -/
structure MsgState where
  queue : PlaybackQueue
  pending : List PendingDecode
deriving Repr, DecidableEq

/-- One event-loop step of the audio/interrupt handling:
`beginAudio` is lines 467-468 (read `nextStartTime` and the clock,
compute `effectiveStartTime`, suspend on the decode await);
`finishAudio` is lines 470-476 run when that chunk's decode resolves
(start the node at the captured time, write `nextStartTime`, add it to
the set); `interruptEvt` is lines 478-482 (stop and clear all sources,
zero `nextStartTime`). -/
inductive MsgStep where
  | beginAudio (chunkId : Nat) (clock duration : Rat)
  | finishAudio (chunkId : Nat)
  | interruptEvt
deriving Repr, DecidableEq

def msgStep (st : MsgState) : MsgStep → MsgState
  | .beginAudio cid clock dur =>
    { st with pending :=
        st.pending ++ [⟨cid, ratMax st.queue.nextStartTime clock, dur⟩] }
  | .finishAudio cid =>
    match st.pending.find? (fun p => p.chunkId == cid) with
    | some p =>
      { queue := { nextStartTime := p.effectiveStartTime + p.duration,
                   sources := st.queue.sources ++
                     [{ startTime := p.effectiveStartTime, duration := p.duration,
                        started := true }] },
        pending := st.pending.filter (fun q => q.chunkId != cid) }
    | none => st
  | .interruptEvt =>
    { st with queue := { nextStartTime := 0, sources := [] } }

def runMsgs (st : MsgState) (steps : List MsgStep) : MsgState :=
  steps.foldl msgStep st

/-- Back-to-back playback: each scheduled node starts exactly when its
predecessor ends. -/
def backToBack : List SourceNode → Bool
  | [] => true
  | [_] => true
  | a :: b :: rest => decide (b.startTime = a.startTime + a.duration) && backToBack (b :: rest)

/-- Claim C2 (enqueue is **not** a critical section): two audio chunks of
duration 1 whose decodes are in flight simultaneously both read
`nextStartTime = 0` before either writes it back, so both sources are
started at time 0 — overlapping playback, violating the claimed
atomic read-compute-write of each enqueue.  This evaluates the embedded
handler on the spec's own "multiple decodes in flight" scenario. -/
theorem enqueue_interleaving_overlaps :
    (runMsgs ⟨resetQueue, []⟩
        [.beginAudio 0 0 1, .beginAudio 1 0 1, .finishAudio 0, .finishAudio 1]).queue.sources
      = [{ startTime := 0, duration := 1, started := true },
         { startTime := 0, duration := 1, started := true }] ∧
    backToBack (runMsgs ⟨resetQueue, []⟩
        [.beginAudio 0 0 1, .beginAudio 1 0 1, .finishAudio 0, .finishAudio 1]).queue.sources
      = false := by
  constructor
  · with_unfolding_all decide
  · with_unfolding_all decide

/-- Claim C3 (stale decodes are **not** dropped): a chunk whose decode is
in flight when the interruption is processed is still scheduled when its
decode resolves — the handler resumes after the `await` with its captured
start time and adds the node to the freshly reset queue.  There is no
generation counter in the code. -/
theorem stale_decode_scheduled_after_interrupt :
    (runMsgs ⟨resetQueue, []⟩
        [.beginAudio 0 0 1, .interruptEvt, .finishAudio 0]).queue.sources
      = [{ startTime := 0, duration := 1, started := true }] ∧
    (runMsgs ⟨resetQueue, []⟩
        [.beginAudio 0 0 1, .interruptEvt, .finishAudio 0]).queue.nextStartTime = 1 := by
  constructor
  · with_unfolding_all decide
  · with_unfolding_all decide

/-- Coherence: an uninterleaved `beginAudio`/`finishAudio` pair on a
state with no other decode in flight is exactly the sequential
`enqueueChunk`. -/
theorem msgStep_pair_eq_enqueueChunk (q : PlaybackQueue) (cid : Nat) (clock dur : Rat) :
    (runMsgs ⟨q, []⟩ [.beginAudio cid clock dur, .finishAudio cid]).queue
      = (enqueueChunk q clock dur).2 := by
  simp [runMsgs, msgStep, enqueueChunk, List.find?, List.filter]

/-! ### Cancellation (claim C5) -/

/-- `AudioBufferSourceNode.stop()`: throws an `InvalidStateError` when
`start()` was never called on the node; on a started node it succeeds,
also when the buffer already finished playing naturally (a tolerated
no-op). -/
def stopSource (s : SourceNode) : Except String SourceNode :=
  if s.started then .ok s else .error "InvalidStateError"

/-- The interruption branch of `onmessage` (`App.tsx` lines 478-482):
`sources.forEach(source => source.stop()); sources.clear();
nextStartTime = 0`.  The `stop()` calls are not wrapped in try/catch
here, so the branch throws iff some node in the set was never started.
Returns the list of nodes that received a `stop()` call together with
the reset queue. -/
def cancelAll (q : PlaybackQueue) : Except String (List SourceNode × PlaybackQueue) := do
  let stopped ← q.sources.mapM stopSource
  return (stopped, { nextStartTime := 0, sources := [] })

instance {ε α : Type} [DecidableEq ε] [DecidableEq α] : DecidableEq (Except ε α) := by
  intro a b
  cases a <;> cases b
  case error.error e1 e2 =>
    exact match decEq e1 e2 with
      | isTrue h => isTrue (h ▸ rfl)
      | isFalse h => isFalse (fun hc => h (Except.error.inj hc))
  case ok.ok a1 a2 =>
    exact match decEq a1 a2 with
      | isTrue h => isTrue (h ▸ rfl)
      | isFalse h => isFalse (fun hc => h (Except.ok.inj hc))
  case error.ok e1 a2 => exact isFalse (fun hc => Except.noConfusion hc)
  case ok.error a1 e2 => exact isFalse (fun hc => Except.noConfusion hc)

theorem mapM_stopSource_of_all_started (l : List SourceNode)
    (h : l.all SourceNode.started = true) : l.mapM stopSource = .ok l := by
  induction l with
  | nil => rfl
  | cons s rest ih =>
    rw [List.all_cons, Bool.and_eq_true] at h
    have hs : stopSource s = .ok s := by
      unfold stopSource
      rw [if_pos h.1]
    rw [List.mapM_cons, hs, ih h.2]
    rfl

/-- Claim C5 (cancellation resets scheduler state): on any queue whose
nodes have all been started — which holds for every queue the code can
build, since `enqueueChunk` only adds started nodes — the interruption
branch does not throw, every node in the active set receives a `stop()`
call, the set is cleared, `nextStartTime` is reset to 0, and a
subsequent enqueue at any output-clock value `c ≥ 0` starts exactly at
`c`. -/
theorem cancelAll_resets (q : PlaybackQueue)
    (h : q.sources.all SourceNode.started = true) :
    cancelAll q = .ok (q.sources, resetQueue) ∧
    (∀ c d : Rat, 0 ≤ c → (enqueueChunk resetQueue c d).1 = c) := by
  constructor
  · unfold cancelAll
    rw [mapM_stopSource_of_all_started q.sources h]
    rfl
  · intro c d hc
    simp only [enqueueChunk, resetQueue, ratMax, if_pos hc]

/-- Witness for C5: the spec's E2E scenario B — one buffer of duration
1.0 enqueued at clock 0 (start time 0), interrupted at clock 0.3: the
set empties and `nextStartTime` resets to 0; an enqueue at clock 0.4
then starts at 0.4, not at 1.0. -/
theorem cancelAll_resets_witness :
    ((enqueueChunk resetQueue 0 1).2.sources.all SourceNode.started = true) ∧
    cancelAll (enqueueChunk resetQueue 0 1).2
      = .ok ((enqueueChunk resetQueue 0 1).2.sources, resetQueue) ∧
    (enqueueChunk resetQueue (mkRat 2 5) 1).1 = mkRat 2 5 :=
  ⟨by with_unfolding_all decide,
   (cancelAll_resets (enqueueChunk resetQueue 0 1).2 (by with_unfolding_all decide)).1,
   (cancelAll_resets (enqueueChunk resetQueue 0 1).2 (by with_unfolding_all decide)).2
     (mkRat 2 5) 1 (by with_unfolding_all decide)⟩

/-! ### Turn assembler (claims C6 and C7)

JavaScript strings are modelled as `List Char`, with the string
operations the handler uses (`+=`, `trim`, `startsWith`, `includes`,
`split`, `substring`, `join`) defined below with JavaScript semantics.
(The core `String` API is built on `Substring` auxiliaries that the
kernel cannot evaluate, so the list representation is used throughout.) -/

abbrev JsString := List Char

/-- JS `String.prototype.trim`: strip leading and trailing whitespace. -/
def jsTrim (l : JsString) : JsString :=
  ((l.dropWhile Char.isWhitespace).reverse.dropWhile Char.isWhitespace).reverse

/-- JS `String.prototype.includes` for a non-empty search string. -/
def jsIncludes (l pat : JsString) : Bool :=
  l.tails.any (fun t => pat.isPrefixOf t)

/-- JS `String.prototype.split` with a non-empty string separator:
leftmost, non-overlapping occurrences.  `fuel` bounds the recursion;
`jsSplit` supplies `l.length + 1`, which is always enough because every
step consumes at least one character of the input. -/
def jsSplitAux (pat : JsString) : Nat → JsString → JsString → List JsString
  | 0, l, acc => [acc.reverse ++ l]
  | _ + 1, [], acc => [acc.reverse]
  | fuel + 1, c :: rest, acc =>
    if pat.isPrefixOf (c :: rest) then
      acc.reverse :: jsSplitAux pat fuel (List.drop pat.length (c :: rest)) []
    else
      jsSplitAux pat fuel rest (c :: acc)

def jsSplit (l pat : JsString) : List JsString :=
  jsSplitAux pat (l.length + 1) l []

/-- `Speaker` from `src/types.ts`. -/
inductive Speaker where
  | user
  | tutor
deriving Repr, DecidableEq

/-- `TranscriptEntry` from `src/types.ts`: `correction` is optional, and
(as in the code) may be present yet empty. -/
structure TranscriptEntry where
  speaker : Speaker
  text : JsString
  correction : Option JsString
deriving Repr, DecidableEq

/-- The two transcription accumulators, `currentInputTranscription` and
`currentOutputTranscription` (`App.tsx` lines 300-301). -/
structure TurnAccumulators where
  currentInput : JsString
  currentOutput : JsString
deriving Repr, DecidableEq

/-- `currentInputTranscription.current += message.serverContent.inputTranscription.text`
(`App.tsx` line 423). -/
def appendInputFragment (st : TurnAccumulators) (fragment : JsString) : TurnAccumulators :=
  { st with currentInput := st.currentInput ++ fragment }

/-- `currentOutputTranscription.current += message.serverContent.outputTranscription.text`
(`App.tsx` line 428). -/
def appendOutputFragment (st : TurnAccumulators) (fragment : JsString) : TurnAccumulators :=
  { st with currentOutput := st.currentOutput ++ fragment }

def correctionMarker : JsString := "Correction:".data

def replySeparator : JsString := "||".data

/-- The turn-complete branch of `onmessage` (`App.tsx` lines 430-463):
trim both accumulators into `finalInput`/`finalOutput`, reset both
accumulators to the empty string, and append the user and tutor
transcript entries, parsing the tutor output into an optional correction
and a reply at the `"Correction:"` marker and `"||"` separator.  JS
truthiness of a string (`if (finalInput)`, `if (replyText || correctionText)`)
is non-emptiness, with an undefined `correctionText` also falsy.
Returns `((finalInput, finalOutput), reset accumulators, appended entries)`. -/
def onTurnComplete (st : TurnAccumulators) :
    (JsString × JsString) × TurnAccumulators × List TranscriptEntry :=
  let finalInput := jsTrim st.currentInput
  let finalOutput := jsTrim st.currentOutput
  let userEntries : List TranscriptEntry :=
    if finalInput ≠ [] then [{ speaker := .user, text := finalInput, correction := none }]
    else []
  let tutorEntries : List TranscriptEntry :=
    if finalOutput ≠ [] then
      let parsed : JsString × Option JsString :=
        if correctionMarker.isPrefixOf finalOutput && jsIncludes finalOutput replySeparator then
          let parts := jsSplit finalOutput replySeparator
          (jsTrim (List.intercalate replySeparator (parts.drop 1)),
           some (jsTrim ((parts.headD []).drop correctionMarker.length)))
        else (finalOutput, none)
      let replyText := parsed.1
      let correctionText := parsed.2
      if replyText ≠ [] ∨ correctionText.getD [] ≠ [] then
        [{ speaker := .tutor, text := replyText, correction := correctionText }]
      else []
    else []
  ((finalInput, finalOutput), ⟨[], []⟩, userEntries ++ tutorEntries)

theorem foldl_appendInput (st : TurnAccumulators) (frags : List JsString) :
    (frags.foldl appendInputFragment st).currentInput
        = st.currentInput ++ frags.flatten ∧
    (frags.foldl appendInputFragment st).currentOutput = st.currentOutput := by
  induction frags generalizing st with
  | nil => simp
  | cons f rest ih =>
    have := ih (appendInputFragment st f)
    simpa [appendInputFragment] using this

theorem foldl_appendOutput (st : TurnAccumulators) (frags : List JsString) :
    (frags.foldl appendOutputFragment st).currentOutput
        = st.currentOutput ++ frags.flatten ∧
    (frags.foldl appendOutputFragment st).currentInput = st.currentInput := by
  induction frags generalizing st with
  | nil => simp
  | cons f rest ih =>
    have := ih (appendOutputFragment st f)
    simpa [appendOutputFragment] using this

/-- Claim C6 (turn accumulation boundary): fragments are appended to the
two accumulators in arrival order; at turn-complete the finalized pair is
exactly the accumulated strings trimmed of leading and trailing
whitespace, and both accumulators are reset to the empty string. -/
theorem turn_accumulation_boundary (st : TurnAccumulators)
    (inFrags outFrags : List JsString) :
    ((outFrags.foldl appendOutputFragment
        (inFrags.foldl appendInputFragment st)).currentInput
      = st.currentInput ++ inFrags.flatten) ∧
    ((outFrags.foldl appendOutputFragment
        (inFrags.foldl appendInputFragment st)).currentOutput
      = st.currentOutput ++ outFrags.flatten) ∧
    ((onTurnComplete (outFrags.foldl appendOutputFragment
        (inFrags.foldl appendInputFragment st))).1
      = (jsTrim (st.currentInput ++ inFrags.flatten),
         jsTrim (st.currentOutput ++ outFrags.flatten))) ∧
    ((onTurnComplete (outFrags.foldl appendOutputFragment
        (inFrags.foldl appendInputFragment st))).2.1 = ⟨[], []⟩) := by
  obtain ⟨hIn, hInOut⟩ := foldl_appendInput st inFrags
  obtain ⟨hOut, hOutIn⟩ :=
    foldl_appendOutput (inFrags.foldl appendInputFragment st) outFrags
  refine ⟨by rw [hOutIn, hIn], by rw [hOut, hInOut], ?_, rfl⟩
  show (jsTrim _, jsTrim _) = _
  rw [hOutIn, hIn, hOut, hInOut]

/-- Claim C7 counterexample: when the trimmed output is a
`"Correction:"` prefix and `"||"` separator with nothing after the
separator, the code pushes a tutor entry whose `text` field is the empty
string (the push guard `if (replyText || correctionText)` passes because
the correction is non-empty). -/
theorem empty_text_entry_surfaced :
    (onTurnComplete ⟨[], "Correction: I goed.||".data⟩).2.2
      = [{ speaker := .tutor, text := [], correction := some "I goed.".data }] := by
  with_unfolding_all decide

/-- Claim C7 amended (no fully blank entries): at turn-complete, an empty
trimmed input accumulator yields no user entry and an empty trimmed
output accumulator yields no tutor entry; every produced entry has
non-empty text or a non-empty correction attached — but a tutor entry
with an empty `text` field *is* produced when the output parses to an
empty reply with a non-empty correction. -/
theorem onTurnComplete_no_blank_entries (st : TurnAccumulators) :
    ((onTurnComplete st).2.2.all
        (fun e => (e.speaker == Speaker.tutor || e.text != []) &&
                  (e.text != [] || e.correction.getD [] != []))) = true ∧
    (jsTrim st.currentInput = [] →
      ((onTurnComplete st).2.2.all (fun e => e.speaker != Speaker.user)) = true) ∧
    (jsTrim st.currentOutput = [] →
      ((onTurnComplete st).2.2.all (fun e => e.speaker != Speaker.tutor)) = true) := by
  refine ⟨?_, ?_, ?_⟩
  · dsimp only [onTurnComplete]
    split_ifs <;> simp_all [bne_iff_ne]
  · intro hIn
    dsimp only [onTurnComplete]
    rw [hIn]
    split_ifs <;> simp_all [bne_iff_ne]
  · intro hOut
    dsimp only [onTurnComplete]
    rw [hOut]
    split_ifs <;> simp_all [bne_iff_ne]

/-- Witness for the amended C7: at the counterexample state the input
accumulator is empty, and indeed no user entry is produced. -/
theorem onTurnComplete_no_blank_entries_witness :
    jsTrim ([] : JsString) = [] ∧
    ((onTurnComplete ⟨[], "Correction: I goed.||".data⟩).2.2.all
        (fun e => e.speaker != Speaker.user)) = true :=
  ⟨rfl, (onTurnComplete_no_blank_entries ⟨[], "Correction: I goed.||".data⟩).2.1 rfl⟩

/-! ### Session resources and teardown (claims C8, C9, C10)

The mutable refs of `App.tsx` lines 293-298 are modelled as one record,
and each teardown function additionally returns the list of release
actions it performed, so that "released exactly once" and the ordering
of release against user-visible reporting can be stated.  Every throwing
call in the teardown path is guarded in the source (`try`/`catch` around
`source.stop()` and `session.close()`, optional chaining on the refs,
`.catch` on `close()`), so teardown is a total function. -/

inductive CtxState where
  | opened
  | closed
deriving Repr, DecidableEq

/-- An `AudioContext` handle: an identity and its open/closed state. -/
structure AudioCtx where
  ctxId : Nat
  state : CtxState
deriving Repr, DecidableEq

/-- The session/audio resource refs (`App.tsx` lines 293-301):
`sessionPromiseRef`, `streamRef` (with its track count),
`audioProcessorRef`, `audioContextsRef` (input and output slots),
`audioPlaybackQueueRef` and `listeningAudioSourceRef`. -/
structure AppResources where
  sessionOpen : Bool
  micTracks : Option Nat
  processorConnected : Bool
  playbackQueue : PlaybackQueue
  inputCtx : Option AudioCtx
  outputCtx : Option AudioCtx
  listeningSourceActive : Bool
deriving Repr, DecidableEq

inductive ReleaseAction where
  | stopMicTrack (i : Nat)
  | disconnectProcessor
  | stopPlaybackSource (i : Nat)
  | closeInputCtx (i : Nat)
  | closeSession
  | stopListeningSource
  | closeOutputCtx (i : Nat)
deriving Repr, DecidableEq

/-- `cleanupSessionResources` (`App.tsx` lines 316-339): stop every mic
track and null the stream ref, disconnect the processor, stop (guarded
by try/catch) and clear the playback sources, zero `nextStartTime`,
close and delete the input context, and stop the listening source.  The
output context slot is not touched. -/
def cleanupSessionResources (r : AppResources) : AppResources × List ReleaseAction :=
  let trackActs := match r.micTracks with
    | some n => (List.range n).map ReleaseAction.stopMicTrack
    | none => []
  let procActs := if r.processorConnected then [ReleaseAction.disconnectProcessor] else []
  let srcActs := (List.range r.playbackQueue.sources.length).map ReleaseAction.stopPlaybackSource
  let inputActs := match r.inputCtx with
    | some c => [ReleaseAction.closeInputCtx c.ctxId]
    | none => []
  let listenActs := if r.listeningSourceActive then [ReleaseAction.stopListeningSource] else []
  ({ r with micTracks := none, processorConnected := false,
            playbackQueue := resetQueue, inputCtx := none, listeningSourceActive := false },
   trackActs ++ procActs ++ srcActs ++ inputActs ++ listenActs)

/-- `stopSession` (`App.tsx` lines 341-355): close the live session if
one exists (errors caught), null the ref, then run
`cleanupSessionResources`. -/
def stopSession (r : AppResources) : AppResources × List ReleaseAction :=
  let sessActs := if r.sessionOpen then [ReleaseAction.closeSession] else []
  let cleaned := cleanupSessionResources { r with sessionOpen := false }
  (cleaned.1, sessActs ++ cleaned.2)

/-- Claim C8 (idempotent teardown): a second `stopSession` performs no
release action and leaves the state unchanged, and a single
`stopSession` already yields the fully released state — mic tracks
stopped and nulled, processor disconnected, playback sources stopped and
cleared, `nextStartTime` zero, input context closed and deleted, session
handle null — for any starting state, including one where nothing was
ever acquired. -/
theorem stopSession_idempotent (r : AppResources) :
    stopSession (stopSession r).1 = ((stopSession r).1, []) ∧
    (stopSession r).1 =
      { sessionOpen := false, micTracks := none, processorConnected := false,
        playbackQueue := resetQueue, inputCtx := none,
        outputCtx := r.outputCtx, listeningSourceActive := false } :=
  ⟨rfl, rfl⟩

/-- User-visible/ordered events of a session-failure handler:
`logged` = `console.error`, `reported` = `alert(...)` (the report to the
user), `statusSet` = the React status update, `released a` = one release
action of the teardown path. -/
inductive FailEvent where
  | logged
  | reported
  | statusSet
  | released (a : ReleaseAction)
deriving Repr, DecidableEq

def isRelease : FailEvent → Bool
  | .released _ => true
  | _ => false

/-- The `onerror` callback (`App.tsx` lines 484-489), in source order:
`console.error`, `alert('A connection error occurred.')`,
`setStatus(SessionStatus.ERROR)`, then `stopSession()`. -/
def onSessionError (r : AppResources) : AppResources × List FailEvent :=
  ((stopSession r).1,
   [FailEvent.logged, FailEvent.reported, FailEvent.statusSet]
     ++ (stopSession r).2.map FailEvent.released)

/-- The `catch` block of `startSession` (`App.tsx` lines 496-510), in
source order: `console.error`, `alert(errorMessage)` (covering the
microphone-permission-denied message), `cleanupSessionResources()`, then
`setStatus(SessionStatus.INACTIVE)`. -/
def startSessionFailure (r : AppResources) : AppResources × List FailEvent :=
  ((cleanupSessionResources r).1,
   [FailEvent.logged, FailEvent.reported]
     ++ (cleanupSessionResources r).2.map FailEvent.released ++ [FailEvent.statusSet])

/-- The property claimed by C9: every release action occurs strictly
before the report to the user. -/
def releasesPrecedeReport (evs : List FailEvent) : Bool :=
  (evs.dropWhile (fun e => e != FailEvent.reported)).all (fun e => !(isRelease e))

/-- A representative live-session state: open session, one mic track,
connected processor, one scheduled playback source, open input and
output contexts. -/
def activeResources : AppResources :=
  { sessionOpen := true, micTracks := some 1, processorConnected := true,
    playbackQueue := { nextStartTime := 1,
                       sources := [{ startTime := 0, duration := 1, started := true }] },
    inputCtx := some ⟨0, CtxState.opened⟩, outputCtx := some ⟨1, CtxState.opened⟩,
    listeningSourceActive := false }

/-- Claim C9 counterexample: on both session-level failure paths
(transport error and failed start) run from a live session state, the
user report (`alert`) happens *before* the resources are released, so
"release before report" is false. -/
theorem report_precedes_release :
    releasesPrecedeReport (onSessionError activeResources).2 = false ∧
    releasesPrecedeReport (startSessionFailure activeResources).2 = false := by
  constructor
  · with_unfolding_all decide
  · with_unfolding_all decide

/-- Claim C9 amended: both session-level failure paths do funnel into the
teardown path, which releases all session resources — but the failure is
reported to the user (the `alert` at trace position 1) *before* the
release actions, not after them. -/
theorem failure_reports_then_releases (r : AppResources) :
    (onSessionError r).2
      = [FailEvent.logged, FailEvent.reported, FailEvent.statusSet]
          ++ (stopSession r).2.map FailEvent.released ∧
    (onSessionError r).1 = (stopSession r).1 ∧
    (startSessionFailure r).2
      = [FailEvent.logged, FailEvent.reported]
          ++ (cleanupSessionResources r).2.map FailEvent.released
          ++ [FailEvent.statusSet] ∧
    (startSessionFailure r).1 = (cleanupSessionResources r).1 ∧
    (onSessionError r).1.micTracks = none ∧
    (onSessionError r).1.inputCtx = none ∧
    (onSessionError r).1.sessionOpen = false ∧
    (onSessionError r).1.playbackQueue = resetQueue :=
  ⟨rfl, rfl, rfl, rfl, rfl, rfl, rfl, rfl⟩

/-- `getOutputAudioContext` (`App.tsx` lines 304-313): return the stored
output context, creating a fresh one (identified by `freshId`) and
storing it whenever the slot is empty or the stored context is closed. -/
def getOutputAudioContext (r : AppResources) (freshId : Nat) : AudioCtx × AppResources :=
  match r.outputCtx with
  | some c =>
    if c.state = CtxState.closed then
      (⟨freshId, CtxState.opened⟩, { r with outputCtx := some ⟨freshId, CtxState.opened⟩ })
    else (c, r)
  | none => (⟨freshId, CtxState.opened⟩, { r with outputCtx := some ⟨freshId, CtxState.opened⟩ })

theorem stopSession_outputCtx (r : AppResources) :
    (stopSession r).1.outputCtx = r.outputCtx := rfl

/-- The unmount effect (`App.tsx` lines 632-641): `stopSession()`, then
close the persistent output context if one exists (the slot is not
deleted; the context transitions to `closed`). -/
def unmountCleanup (r : AppResources) : AppResources × List ReleaseAction :=
  match (stopSession r).1.outputCtx with
  | some c =>
    ({ (stopSession r).1 with outputCtx := some ⟨c.ctxId, CtxState.closed⟩ },
     (stopSession r).2 ++ [ReleaseAction.closeOutputCtx c.ctxId])
  | none => ((stopSession r).1, (stopSession r).2)

def isCloseOutput : ReleaseAction → Bool
  | .closeOutputCtx _ => true
  | _ => false

theorem cleanup_no_closeOutput (r : AppResources) :
    ((cleanupSessionResources r).2.countP isCloseOutput) = 0 := by
  obtain ⟨so, mt, pc, pq, ic, oc, ls⟩ := r
  rcases mt with _ | n <;> rcases ic with _ | c <;> rcases pc <;> rcases ls <;>
    simp [cleanupSessionResources, isCloseOutput, Function.comp]

theorem stopSession_no_closeOutput (r : AppResources) :
    ((stopSession r).2.countP isCloseOutput) = 0 := by
  dsimp only [stopSession]
  rw [List.countP_append, cleanup_no_closeOutput]
  rcases hs : r.sessionOpen <;> simp [hs, isCloseOutput]

/-- Claim C10 (output-context liveness): the accessor always returns an
open context and stores what it returns (creating a fresh context when
the slot is absent or closed); per-session cleanup leaves the output
slot untouched and neither cleanup nor `stopSession` ever closes the
output context; the unmount path closes the stored output context
exactly once. -/
theorem output_context_liveness (r : AppResources) (freshId : Nat) :
    (getOutputAudioContext r freshId).1.state = CtxState.opened ∧
    (getOutputAudioContext r freshId).2.outputCtx = some (getOutputAudioContext r freshId).1 ∧
    (cleanupSessionResources r).1.outputCtx = r.outputCtx ∧
    ((cleanupSessionResources r).2.countP isCloseOutput) = 0 ∧
    ((stopSession r).2.countP isCloseOutput) = 0 ∧
    (∀ c, r.outputCtx = some c →
      ((unmountCleanup r).2.countP isCloseOutput) = 1 ∧
      (unmountCleanup r).1.outputCtx = some ⟨c.ctxId, CtxState.closed⟩) := by
  obtain ⟨so, mt, pc, pq, ic, oc, ls⟩ := r
  refine ⟨?_, ?_, rfl, cleanup_no_closeOutput _, stopSession_no_closeOutput _, ?_⟩
  · rcases oc with _ | c
    · rfl
    · dsimp only [getOutputAudioContext]
      by_cases hc : c.state = CtxState.closed
      · rw [if_pos hc]
      · rw [if_neg hc]
        obtain ⟨i, s⟩ := c
        cases s
        · rfl
        · exact absurd rfl hc
  · rcases oc with _ | c
    · rfl
    · dsimp only [getOutputAudioContext]
      by_cases hc : c.state = CtxState.closed
      · rw [if_pos hc]
      · rw [if_neg hc]
  · intro c hc
    dsimp only at hc
    subst hc
    constructor
    · simp only [unmountCleanup, stopSession_outputCtx]
      rw [List.countP_append, stopSession_no_closeOutput]
      rfl
    · simp only [unmountCleanup, stopSession_outputCtx]

/-- Witness for C10: on a state whose output slot holds an open context
with identity 5, unmount closes it exactly once and leaves it stored as
closed. -/
theorem output_context_liveness_witness :
    ((unmountCleanup { activeResources with outputCtx := some ⟨5, CtxState.opened⟩ }).2.countP
        isCloseOutput) = 1 ∧
    (unmountCleanup { activeResources with
        outputCtx := some ⟨5, CtxState.opened⟩ }).1.outputCtx
      = some ⟨5, CtxState.closed⟩ :=
  (output_context_liveness { activeResources with outputCtx := some ⟨5, CtxState.opened⟩ }
    0).2.2.2.2.2 ⟨5, CtxState.opened⟩ rfl

/-! ### PCM codec (claim C4)

`createPcmBlob` (`App.tsx` lines 88-98) is in the source; the `encode`,
`decode` and `decodeAudioData` helpers it relies on are imported from a
`utils/audio` module the repository does not contain, so those are
modelled from the spec (§4.1).  Samples are rationals; the JS store
`int16[i] = data[i] * 32768` truncates toward zero and wraps to the
signed 16-bit range (`ToInt16`). -/

def INPUT_SAMPLE_RATE : Nat := 16000

def OUTPUT_SAMPLE_RATE : Nat := 24000

def SCRIPT_PROCESSOR_BUFFER_SIZE : Nat := 4096

/-- Truncation toward zero: the fractional-part discarding JavaScript's
`ToInt16` conversion applies before wrapping. -/
def jsTrunc (q : Rat) : Int := if 0 ≤ q then ⌊q⌋ else ⌈q⌉

/-- JavaScript `ToInt16`: wrap an integer to the signed 16-bit range. -/
def toInt16 (x : Int) : Int :=
  if x % 65536 < 32768 then x % 65536 else x % 65536 - 65536

/-- The element store `int16[i] = data[i] * 32768` of `createPcmBlob`
(`App.tsx` line 92). -/
def sampleToInt16 (s : Rat) : Int := toInt16 (jsTrunc (s * 32768))

/-- The little-endian byte pair of a signed 16-bit value, as exposed by
`new Uint8Array(int16.buffer)` (`App.tsx` line 95). -/
def int16ToBytesLE (x : Int) : List Nat :=
  [(x % 65536).toNat % 256, (x % 65536).toNat / 256]

/-- The raw byte stream of an encoded frame. -/
def pcmBytes (samples : List Rat) : List Nat :=
  (samples.map fun s => int16ToBytesLE (sampleToInt16 s)).flatten

/-- The standard base64 alphabet. -/
def base64Chars : List Char :=
  ['A', 'B', 'C', 'D', 'E', 'F', 'G', 'H', 'I', 'J', 'K', 'L', 'M',
   'N', 'O', 'P', 'Q', 'R', 'S', 'T', 'U', 'V', 'W', 'X', 'Y', 'Z',
   'a', 'b', 'c', 'd', 'e', 'f', 'g', 'h', 'i', 'j', 'k', 'l', 'm',
   'n', 'o', 'p', 'q', 'r', 's', 't', 'u', 'v', 'w', 'x', 'y', 'z',
   '0', '1', '2', '3', '4', '5', '6', '7', '8', '9', '+', '/']

def sextetChar (v : Nat) : Char := base64Chars.getD v '='

def charSextet (c : Char) : Option Nat := base64Chars.findIdx? (fun d => d == c)

/-- Modelled from the spec: the `encode` helper imported from the
missing `utils/audio` module — §4.1 "packs little-endian, base64-encodes
the raw bytes".  Standard base64 with `=` padding. -/
def base64Encode : List Nat → List Char
  | [] => []
  | [a] => [sextetChar (a / 4), sextetChar (a % 4 * 16), '=', '=']
  | [a, b] => [sextetChar (a / 4), sextetChar (a % 4 * 16 + b / 16),
               sextetChar (b % 16 * 4), '=']
  | a :: b :: c :: rest =>
    sextetChar (a / 4) :: sextetChar (a % 4 * 16 + b / 16) ::
    sextetChar (b % 16 * 4 + c / 64) :: sextetChar (c % 64) :: base64Encode rest

/-- Modelled from the spec: the base64-decoding half of the missing
`utils/audio` module — §4.1 "base64-decodes"; fails (`none`) when the
input cannot be base64-decoded. -/
def base64Decode : List Char → Option (List Nat)
  | [] => some []
  | c1 :: c2 :: c3 :: c4 :: rest =>
    match charSextet c1, charSextet c2 with
    | some v1, some v2 =>
      if c3 = '=' ∧ c4 = '=' ∧ rest = [] then
        some [v1 * 4 + v2 / 16]
      else
        match charSextet c3 with
        | some v3 =>
          if c4 = '=' ∧ rest = [] then
            some [v1 * 4 + v2 / 16, v2 % 16 * 16 + v3 / 4]
          else
            match charSextet c4, base64Decode rest with
            | some v4, some tail =>
              some ((v1 * 4 + v2 / 16) :: (v2 % 16 * 16 + v3 / 4)
                :: (v3 % 4 * 64 + v4) :: tail)
            | _, _ => none
        | none => none
    | _, _ => none
  | _ => none

/-- Reinterpret a little-endian byte pair as a signed 16-bit value. -/
def bytesLEToInt16 (b0 b1 : Nat) : Int :=
  if b0 + 256 * b1 < 32768 then (b0 + 256 * b1 : Int) else (b0 + 256 * b1 : Int) - 65536

/-- Modelled from the spec: the sample-normalisation half of
`decodeAudioData` from the missing `utils/audio` module — §4.1
"reinterprets as signed 16-bit little-endian samples, normalizes each to
float in [-1,1] by dividing by 32768"; fails (`none`) when the byte
length is not a multiple of 2. -/
def bytesToSamples : List Nat → Option (List Rat)
  | [] => some []
  | b0 :: b1 :: rest =>
    match bytesToSamples rest with
    | some tail => some (((bytesLEToInt16 b0 b1 : Int) : Rat) / 32768 :: tail)
    | none => none
  | _ => none

/-- The `Blob` value `createPcmBlob` returns (`App.tsx` lines 94-97). -/
structure PcmBlob where
  data : List Char
  mimeType : JsString
deriving Repr, DecidableEq

/-- `createPcmBlob` (`App.tsx` lines 88-98): scale each sample by 32768
into an `Int16Array`, view the buffer as bytes, base64-encode, and tag
with the input sample rate. -/
def createPcmBlob (samples : List Rat) : PcmBlob :=
  { data := base64Encode (pcmBytes samples),
    mimeType := "audio/pcm;rate=16000".data }

/-- Modelled from the spec: `decodeChunk` (§4.1) — base64-decode, then
reinterpret and normalise the samples. -/
def decodeChunk (data : List Char) : Option (List Rat) :=
  match base64Decode data with
  | some bytes => bytesToSamples bytes
  | none => none

theorem charSextet_sextetChar : ∀ v, v < 64 → charSextet (sextetChar v) = some v := by
  decide

theorem sextetChar_ne_padding : ∀ v, v < 64 → sextetChar v ≠ '=' := by
  decide

theorem base64_roundTrip : ∀ bs : List Nat, (∀ b ∈ bs, b < 256) →
    base64Decode (base64Encode bs) = some bs
  | [], _ => rfl
  | [a], h => by
    have ha : a < 256 := h a (by simp)
    have h1 := charSextet_sextetChar (a / 4) (by omega)
    have h2 := charSextet_sextetChar (a % 4 * 16) (by omega)
    simp only [base64Encode, base64Decode, h1, h2]
    rw [if_pos (by simp)]
    have e1 : a / 4 * 4 + a % 4 * 16 / 16 = a := by omega
    rw [e1]
  | [a, b], h => by
    have ha : a < 256 := h a (by simp)
    have hb : b < 256 := h b (by simp)
    have h1 := charSextet_sextetChar (a / 4) (by omega)
    have h2 := charSextet_sextetChar (a % 4 * 16 + b / 16) (by omega)
    have h3 := charSextet_sextetChar (b % 16 * 4) (by omega)
    have hne : sextetChar (b % 16 * 4) ≠ '=' := sextetChar_ne_padding _ (by omega)
    simp only [base64Encode, base64Decode, h1, h2, h3]
    rw [if_neg (by simp [hne]), if_pos (by simp)]
    have e1 : a / 4 * 4 + (a % 4 * 16 + b / 16) / 16 = a := by omega
    have e2 : (a % 4 * 16 + b / 16) % 16 * 16 + b % 16 * 4 / 4 = b := by omega
    rw [e1, e2]
  | a :: b :: c :: rest, h => by
    have ha : a < 256 := h a (by simp)
    have hb : b < 256 := h b (by simp)
    have hc : c < 256 := h c (by simp)
    have ih := base64_roundTrip rest (fun x hx => h x (by simp [hx]))
    have h1 := charSextet_sextetChar (a / 4) (by omega)
    have h2 := charSextet_sextetChar (a % 4 * 16 + b / 16) (by omega)
    have h3 := charSextet_sextetChar (b % 16 * 4 + c / 64) (by omega)
    have h4 := charSextet_sextetChar (c % 64) (by omega)
    have hne3 : sextetChar (b % 16 * 4 + c / 64) ≠ '=' := sextetChar_ne_padding _ (by omega)
    have hne4 : sextetChar (c % 64) ≠ '=' := sextetChar_ne_padding _ (by omega)
    simp only [base64Encode, base64Decode, h1, h2, h3, h4, ih]
    rw [if_neg (by simp [hne3]), if_neg (by simp [hne4])]
    have e1 : a / 4 * 4 + (a % 4 * 16 + b / 16) / 16 = a := by omega
    have e2 : (a % 4 * 16 + b / 16) % 16 * 16 + (b % 16 * 4 + c / 64) / 4 = b := by omega
    have e3 : (b % 16 * 4 + c / 64) % 4 * 64 + c % 64 = c := by omega
    rw [e1, e2, e3]

theorem toInt16_range (x : Int) : -32768 ≤ toInt16 x ∧ toInt16 x < 32768 := by
  unfold toInt16
  split <;> omega

theorem toInt16_eq_self (x : Int) (h1 : -32768 ≤ x) (h2 : x < 32768) : toInt16 x = x := by
  unfold toInt16
  split <;> omega

theorem bytesLE_roundTrip (x : Int) (h1 : -32768 ≤ x) (h2 : x < 32768) :
    bytesLEToInt16 ((x % 65536).toNat % 256) ((x % 65536).toNat / 256) = x := by
  unfold bytesLEToInt16
  split <;> omega

theorem int16ToBytesLE_lt (x : Int) : ∀ b ∈ int16ToBytesLE x, b < 256 := by
  intro b hb
  unfold int16ToBytesLE at hb
  simp only [List.mem_cons, List.not_mem_nil, or_false] at hb
  rcases hb with rfl | rfl <;> omega

theorem pcmBytes_lt (samples : List Rat) : ∀ b ∈ pcmBytes samples, b < 256 := by
  intro b hb
  unfold pcmBytes at hb
  rw [List.mem_flatten] at hb
  obtain ⟨l, hl, hbl⟩ := hb
  rw [List.mem_map] at hl
  obtain ⟨s, _, rfl⟩ := hl
  exact int16ToBytesLE_lt _ b hbl

theorem bytesToSamples_pcmBytes (samples : List Rat) :
    bytesToSamples (pcmBytes samples)
      = some (samples.map fun s => ((sampleToInt16 s : Int) : Rat) / 32768) := by
  induction samples with
  | nil => rfl
  | cons s rest ih =>
    have hflat : pcmBytes (s :: rest)
        = (((sampleToInt16 s) % 65536).toNat % 256)
          :: (((sampleToInt16 s) % 65536).toNat / 256) :: pcmBytes rest := by
      simp [pcmBytes, int16ToBytesLE]
    rw [hflat]
    obtain ⟨g1, g2⟩ := toInt16_range (jsTrunc (s * 32768))
    simp only [bytesToSamples, ih, List.map_cons]
    rw [bytesLE_roundTrip (sampleToInt16 s) g1 g2]

theorem decodeChunk_createPcmBlob (samples : List Rat) :
    decodeChunk (createPcmBlob samples).data
      = some (samples.map fun s => ((sampleToInt16 s : Int) : Rat) / 32768) := by
  show decodeChunk (base64Encode (pcmBytes samples)) = _
  unfold decodeChunk
  rw [base64_roundTrip (pcmBytes samples) (pcmBytes_lt samples)]
  exact bytesToSamples_pcmBytes samples

theorem jsTrunc_dist (q : Rat) : |(jsTrunc q : Rat) - q| ≤ 1 := by
  unfold jsTrunc
  split
  · rw [abs_le]
    constructor
    · have := Int.lt_floor_add_one q
      linarith
    · have := Int.floor_le q
      linarith
  · rw [abs_le]
    have h1 := Int.le_ceil q
    have h2 := Int.ceil_lt_add_one q
    constructor
    · linarith
    · linarith

theorem jsTrunc_range (q : Rat) (h1 : -32768 ≤ q) (h2 : q < 32768) :
    -32768 ≤ jsTrunc q ∧ jsTrunc q < 32768 := by
  unfold jsTrunc
  split
  · rename_i hq
    constructor
    · have : (0 : ℤ) ≤ ⌊q⌋ := Int.floor_nonneg.2 hq
      omega
    · rw [Int.floor_lt]
      exact_mod_cast h2
  · rename_i hq
    push_neg at hq
    constructor
    · have hle : ((-32768 : ℤ) : ℚ) ≤ (⌈q⌉ : ℚ) :=
        le_trans (by exact_mod_cast h1) (Int.le_ceil q)
      exact_mod_cast hle
    · have : ⌈q⌉ ≤ 0 := Int.ceil_le.2 (by push_cast; linarith)
      omega

theorem sample_roundTrip_bound (s : Rat) (h1 : -1 ≤ s) (h2 : s < 1) :
    |((sampleToInt16 s : Int) : Rat) / 32768 - s| ≤ 1 / 32768 := by
  have hx1 : -32768 ≤ s * 32768 := by linarith
  have hx2 : s * 32768 < 32768 := by linarith
  obtain ⟨hr1, hr2⟩ := jsTrunc_range (s * 32768) hx1 hx2
  unfold sampleToInt16
  rw [toInt16_eq_self _ hr1 hr2]
  have hd := jsTrunc_dist (s * 32768)
  rw [abs_le] at hd ⊢
  constructor
  · linarith [hd.1]
  · linarith [hd.2]

/-- Claim C4 counterexample: the sample 1.0 lies in [-1, 1], but
`1.0 * 32768 = 32768` wraps to `-32768` in the 16-bit store, so the
round trip returns -1.0 — an absolute error of 2, far above one
quantization step.  (The spec itself flags out-of-range input as caller
UB, and +1.0 overflows; the claim's closed interval is too large.) -/
theorem codec_roundTrip_counterexample :
    decodeChunk (createPcmBlob [(1 : Rat)]).data = some [(-1 : Rat)] ∧
    ¬(|(-1 : Rat) - 1| ≤ 1 / 32768) := by
  constructor
  · rw [decodeChunk_createPcmBlob]
    with_unfolding_all decide
  · rw [abs_le]
    intro hcon
    have := hcon.1
    norm_num at this

/-- Claim C4 amended (codec round-trip on [-1, 1)): for every frame
whose samples lie in [-1, 1), decoding the encoded blob succeeds and
reproduces each sample within 1/32768; and the all-zero frame of 4096
samples round-trips to exact zeros. -/
theorem codec_roundTrip_amended (samples : List Rat)
    (h : ∀ s ∈ samples, -1 ≤ s ∧ s < 1) :
    decodeChunk (createPcmBlob samples).data
      = some (samples.map fun s => ((sampleToInt16 s : Int) : Rat) / 32768) ∧
    (∀ i, i < samples.length →
      |(samples.map fun s => ((sampleToInt16 s : Int) : Rat) / 32768).getD i 0
        - samples.getD i 0| ≤ 1 / 32768) ∧
    decodeChunk (createPcmBlob (List.replicate 4096 (0 : Rat))).data
      = some (List.replicate 4096 (0 : Rat)) := by
  refine ⟨decodeChunk_createPcmBlob samples, ?_, ?_⟩
  · intro i hi
    have hlen : i < (samples.map fun s => ((sampleToInt16 s : Int) : Rat) / 32768).length := by
      simpa using hi
    rw [List.getD_eq_getElem _ _ hlen, List.getD_eq_getElem _ _ hi, List.getElem_map]
    obtain ⟨hs1, hs2⟩ := h _ (List.getElem_mem hi)
    exact sample_roundTrip_bound _ hs1 hs2
  · rw [decodeChunk_createPcmBlob, List.map_replicate]
    have h0 : ((sampleToInt16 0 : Int) : Rat) / 32768 = 0 := by
      with_unfolding_all decide
    rw [h0]

/-- Witness for the amended C4: the frame [0.5, -0.5, 0] satisfies the
[-1, 1) bound and round-trips exactly. -/
theorem codec_roundTrip_amended_witness :
    ((-1 : Rat) ≤ mkRat 1 2 ∧ mkRat 1 2 < 1) ∧
    decodeChunk (createPcmBlob [mkRat 1 2, -(mkRat 1 2), 0]).data
      = some [mkRat 1 2, -(mkRat 1 2), 0] := by
  refine ⟨by with_unfolding_all decide, ?_⟩
  rw [(codec_roundTrip_amended [mkRat 1 2, -(mkRat 1 2), 0]
    (by with_unfolding_all decide)).1]
  with_unfolding_all decide

end TutorApp
